import Mathlib

/-!
# Verification of the adder parsing-and-code-projection pipeline

A shallow embedding of the core of the `adder` documentation-to-CLI-code
generator: the package/namespace resolver (`Config.GetPackageName`,
`Config.IsIndexFile`), the PascalCase identifier derivation (`pascalCase`),
the frontmatter extractor (`Parser.ParseContent` and its helpers), the
cross-field validator (`validateCommand`, `validateFlagConfiguration`,
`validateDefaultValueType`, `validateCommandConfiguration`), the discovery
classification of `Parser.ParseDirectory`, and the incremental-regeneration
oracle (`Generator.shouldRegenerateFile`) together with the grouping and
write loop of `Generator.Generate`.

Strings are modelled as Lean `String`s with the operations re-implemented
over `List Char` so that everything evaluates by kernel reduction.  Byte
slicing in the Go source (`part[:1]`, `packageName[0]`) is modelled at the
character level, which is faithful for ASCII input.  Path functions
(`filepath.Dir`, `filepath.Base`, `filepath.Ext`, `filepath.Join`) are
modelled for clean, slash-separated relative paths, which is what the
pipeline produces (paths come from `fs.WalkDir` and are joined from clean
components); the path-cleaning performed by Go's `filepath.Clean` on
already-clean inputs is the identity.
-/

namespace Adder

/-! ## String helpers (Go `strings` package operations used by the source) -/

/-- Model of Go `strings.HasPrefix` (byte comparison; character-level here). -/
def strStartsWith (s pat : String) : Bool :=
  pat.data.isPrefixOf s.data

/-- Model of Go `strings.HasSuffix`. -/
def strEndsWith (s pat : String) : Bool :=
  pat.data.isSuffixOf s.data

/-- Core of `strings.ReplaceAll` on character lists, structurally recursive
on a fuel argument so that it evaluates by kernel reduction; each step
consumes at least one character, so fuel equal to the length of the input is
always sufficient.  The source only ever replaces non-empty
single-character patterns (`"/"`, `"-"`, `"["`, `"]"`); the empty-pattern
behaviour of Go (interleaving) is not modelled. -/
def replaceAllL (pat rep : List Char) : Nat → List Char → List Char
  | 0, l => l
  | _ + 1, [] => []
  | n + 1, c :: rest =>
    if pat ≠ [] ∧ pat.isPrefixOf (c :: rest) then
      rep ++ replaceAllL pat rep n ((c :: rest).drop pat.length)
    else
      c :: replaceAllL pat rep n rest

/-- Model of Go `strings.ReplaceAll`. -/
def replaceAllStr (s pat rep : String) : String :=
  ⟨replaceAllL pat.data rep.data s.data.length s.data⟩

/-- Model of Go `strings.TrimSuffix`. -/
def trimSuffixStr (s suf : String) : String :=
  if strEndsWith s suf then ⟨s.data.take (s.data.length - suf.data.length)⟩ else s

/-- Whitespace test used by Go `strings.TrimSpace`; restricted to the ASCII
whitespace characters (space, tab, newline, carriage return), which is all
the documents in this pipeline contain. -/
def isSpaceChar (c : Char) : Bool :=
  c = ' ' || c = '\t' || c = '\n' || c = '\r'

/-- Model of Go `strings.TrimSpace`. -/
def trimSpace (s : String) : String :=
  ⟨((s.data.dropWhile isSpaceChar).reverse.dropWhile isSpaceChar).reverse⟩

/-- First component and remainder at the first occurrence of `pat`, or `none`
when `pat` does not occur: the essence of Go `strings.SplitN(s, pat, 2)`
(which returns two parts exactly when the separator occurs). -/
def splitOnceL (pat : List Char) : List Char → Option (List Char × List Char)
  | [] => none
  | c :: rest =>
    if pat.isPrefixOf (c :: rest) then some ([], (c :: rest).drop pat.length)
    else
      match splitOnceL pat rest with
      | some (l, r) => some (c :: l, r)
      | none => none

/-- Splitter of `strings.FieldsFunc`: maximal runs of characters for which
`p` is false, in order; `acc` holds the current run reversed. -/
def fieldsFuncAux (p : Char → Bool) : List Char → List Char → List (List Char)
  | acc, [] => if acc.isEmpty then [] else [acc.reverse]
  | acc, c :: rest =>
    if p c then
      if acc.isEmpty then fieldsFuncAux p [] rest
      else acc.reverse :: fieldsFuncAux p [] rest
    else fieldsFuncAux p (c :: acc) rest

/-- Model of Go `strings.FieldsFunc`. -/
def fieldsFunc (p : Char → Bool) (s : String) : List (List Char) :=
  fieldsFuncAux p [] s.data

/-! ## Path helpers (Go `path/filepath` operations used by the source),
modelled for clean slash-separated relative paths. -/

/-- Split a character list on `'/'`. -/
def splitSlash : List Char → List (List Char)
  | [] => [[]]
  | c :: rest =>
    let r := splitSlash rest
    if c = '/' then [] :: r
    else
      match r with
      | h :: t => (c :: h) :: t
      | [] => [[c]]

/-- Model of Go `filepath.Dir` on clean relative paths: everything before the
last separator, or `"."` when there is none. -/
def pathDir (p : String) : String :=
  match (splitSlash p.data).dropLast with
  | [] => "."
  | ds => ⟨List.intercalate ['/'] ds⟩

/-- Model of Go `filepath.Base` on clean relative paths: the last component. -/
def pathBase (p : String) : String :=
  ⟨(splitSlash p.data).getLastD []⟩

/-- Model of Go `filepath.Ext`: the suffix of the final path element starting
at its final dot, or `""` when the final element has no dot. -/
def pathExt (p : String) : String :=
  let rev := (pathBase p).data.reverse
  if rev.any (· = '.') then ⟨'.' :: (rev.takeWhile (· ≠ '.')).reverse⟩ else ""

/-- Model of Go `filepath.Join` on two clean components: empty components are
dropped, the rest joined with `'/'`. -/
def pathJoin2 (a b : String) : String :=
  if a = "" then b else if b = "" then a else a ++ "/" ++ b

/-- Model of Go `filepath.Join` on three clean components. -/
def pathJoin3 (a b c : String) : String :=
  pathJoin2 (pathJoin2 a b) c

/-! ## Configuration (`Config` from types.go)

The `Validation` sub-configuration is omitted: none of the modelled
functions read it. -/

/-- Model of `Config` from types.go. -/
structure Config where
  BinaryName : String
  InputDir : String
  OutputDir : String
  Package : String
  GeneratedFileSuffix : String
  IndexFormat : String
  PackageStrategy : String
deriving DecidableEq, Repr

/-- Model of `DefaultConfig` from types.go. -/
def DefaultConfig : Config :=
  { BinaryName := ""
    InputDir := "docs/commands"
    OutputDir := "generated"
    Package := "generated"
    GeneratedFileSuffix := "_generated.go"
    IndexFormat := "directory"
    PackageStrategy := "directory" }

/-- Model of `isLetter` from types.go (byte-level in Go; first characters of the
identifiers involved are ASCII, where byte and character agree). -/
def isLetter (c : Char) : Bool :=
  ('a' ≤ c && c ≤ 'z') || ('A' ≤ c && c ≤ 'Z')

/-- The identifier conversion that `Config.GetPackageName` repeats inline in
each strategy branch: replace `/` and `-` by `_`, then prepend the `pkg_`
sentinel when the (non-empty) result does not start with a letter. -/
def goPackageIdent (s : String) : String :=
  let p := replaceAllStr (replaceAllStr s "/" "_") "-" "_"
  match p.data with
  | [] => p
  | c :: _ => if isLetter c then p else "pkg_" ++ p

/-- Model of `Config.GetIndexPatterns` from types.go. -/
def Config.GetIndexPatterns (c : Config) (dirName : String) : List String :=
  match c.IndexFormat with
  | "index" => ["index.md"]
  | "_index" => ["_index.md"]
  | "directory" => [dirName ++ ".md", "index.md"]
  | "hugo" => ["_index.md"]
  | _ => [dirName ++ ".md", "index.md"]

/-- Model of `Config.IsIndexFile` from types.go. -/
def Config.IsIndexFile (c : Config) (filename dirName : String) : Bool :=
  (c.GetIndexPatterns dirName).any (fun pat => filename == pat)

/-- Model of `Config.GetPackageName` from types.go.  The Go `default` branch mutates
`c.PackageStrategy` to `"directory"` and recurses; this is modelled by
computing the `"directory"` result directly. -/
def Config.GetPackageName (c : Config) (filePath : String) : String :=
  match c.PackageStrategy with
  | "single" => c.Package
  | "directory" =>
    let dir := pathDir filePath
    if dir = "." then c.Package
    else goPackageIdent dir
  | "path" =>
    let dir := pathDir filePath
    let filename := pathBase filePath
    if dir ≠ "." && c.IsIndexFile filename (pathBase dir) then
      goPackageIdent dir
    else
      goPackageIdent (trimSuffixStr filePath (pathExt filePath))
  | _ =>
    let dir := pathDir filePath
    if dir = "." then c.Package
    else goPackageIdent dir

/-! ## PascalCase identifier derivation (`pascalCase` from parser.go) -/

/-- The per-token transformation of `pascalCase`:
`strings.ToUpper(part[:1]) + strings.ToLower(part[1:])`, at character level
(faithful for ASCII). -/
def capToken : List Char → List Char
  | [] => []
  | c :: rest => c.toUpper :: rest.map Char.toLower

/-- Model of `pascalCase` from parser.go: split on `-`, `_` and space, capitalize the
first character of each token, lowercase the rest, concatenate. -/
def pascalCase (s : String) : String :=
  let parts := fieldsFunc (fun r => r = '-' || r = '_' || r = ' ') s
  ⟨(parts.map capToken).flatten⟩

/-- Model of `Parser.cleanCommandName` from parser.go: keep the first
whitespace-separated token and strip brackets from it. -/
def cleanCommandName (name : String) : String :=
  match fieldsFunc isSpaceChar name with
  | [] => name
  | t :: _ => replaceAllStr (replaceAllStr ⟨t⟩ "[" "") "]" ""

/-! ## Dynamic YAML values

`yaml.v2` unmarshals the frontmatter into `map[string]interface{}` at top
level, with nested values of dynamic type.  `YVal` models the dynamic
values: strings, integers (Go `int` and `int64` collapsed into one
constructor — the source treats them identically), floats (modelled as
rationals: the only float operation performed is the whole-number test
`v == float64(int64(v))`, which for representable values is integrality),
booleans, arrays, mappings with dynamic keys, and `nil`. -/

inductive YVal where
  | str (s : String)
  | intV (n : Int)
  | floatV (q : Rat)
  | boolV (b : Bool)
  | arr (xs : List YVal)
  | mp (kvs : List (YVal × YVal))
  | nullV

/-- Go `%T` of a dynamic value, as printed in the validator's error
messages. -/
def goTypeName : YVal → String
  | .str _ => "string"
  | .intV _ => "int"
  | .floatV _ => "float64"
  | .boolV _ => "bool"
  | .arr _ => "[]interface {}"
  | .mp _ => "map[interface {}]interface {}"
  | .nullV => "<nil>"

/-- Join with single spaces (Go's `%v` separator inside slices). -/
def joinSpace (xs : List String) : String :=
  ⟨List.intercalate [' '] (xs.map String.data)⟩

mutual
/-- Go `fmt.Sprintf("%v", ·)` of a dynamic value.  Exact for strings,
integers and booleans (the shapes the claims exercise); the float and
composite renderings approximate Go's formatting. -/
def goFormatV : YVal → String
  | .str s => s
  | .intV n => toString n
  | .floatV q => toString q
  | .boolV b => cond b "true" "false"
  | .arr xs => "[" ++ joinSpace (goFormatList xs) ++ "]"
  | .mp kvs => "map[" ++ joinSpace (goFormatPairs kvs) ++ "]"
  | .nullV => "<nil>"

def goFormatList : List YVal → List String
  | [] => []
  | x :: xs => goFormatV x :: goFormatList xs

def goFormatPairs : List (YVal × YVal) → List String
  | [] => []
  | (k, v) :: xs => (goFormatV k ++ ":" ++ goFormatV v) :: goFormatPairs xs
end

/-- Lookup of a string key in a `map[interface{}]interface{}` value: only a
string key equal to `key` matches (Go interface equality). -/
def ylookup (kvs : List (YVal × YVal)) (key : String) : Option YVal :=
  match kvs with
  | [] => none
  | (k, v) :: rest =>
    match k with
    | .str t => if t = key then some v else ylookup rest key
    | _ => ylookup rest key

/-- Lookup in the top-level `map[string]interface{}`. -/
def slookup (kvs : List (String × YVal)) (key : String) : Option YVal :=
  match kvs with
  | [] => none
  | (k, v) :: rest => if k = key then some v else slookup rest key

/-! ## The command model (types.go)

The `Command` struct in the packaged types.go omits the `PersistentFlags`
field, but parser.go and the validators reference `cmd.PersistentFlags`, so
the field is present in the compiling source; it is included here. -/

/-- Model of `Argument` from types.go. -/
structure Argument where
  name : String
  description : String
  required : Bool
  type : String
deriving DecidableEq, Repr

/-- Model of `Flag` from types.go.  `default` is Go's `interface{}`; `none` models the
nil interface. -/
structure Flag where
  name : String
  shorthand : String
  description : String
  type : String
  default : Option YVal
  required : Bool
  enum : List String

/-- Model of `Command` from types.go (with the `PersistentFlags` field the rest of
the source requires). -/
structure Command where
  title : String
  name : String
  aliases : List String
  hidden : Bool
  arguments : List Argument
  flags : List Flag
  persistentFlags : List Flag
  description : String
  filePath : String
  isRootCommand : Bool
  commandPath : String

/-! ## Cross-field validation (part of the source outside parser.go:
`validateFlagConfiguration`, `validateArgumentConfiguration`,
`validateDefaultValueType`, `validateCommandConfiguration`) -/

/-- Success test of Go `strconv.Atoi`: an optional sign followed by at least
one ASCII digit (Go additionally rejects values overflowing `int`, which is
not modelled; no claim involves such values). -/
def atoiOk (s : String) : Bool :=
  let l := match s.data with
    | '+' :: r => r
    | '-' :: r => r
    | r => r
  !l.isEmpty && l.all Char.isDigit

/-- Model of `validateDefaultValueType` from the validation file.  The Go `[]string`
branch of the `stringArray` case is unreachable through `yaml.v2` (which
produces `[]interface{}`) and has no separate model. -/
def validateDefaultValueType (fieldName fieldType : String) (defaultValue : YVal)
    (filePath : String) : Except String Unit :=
  let ft := if fieldType = "" then "string" else fieldType
  match ft with
  | "string" =>
    match defaultValue with
    | .str _ => .ok ()
    | v => .error ("file " ++ filePath ++ ": " ++ fieldName ++
        ": default value must be a string for type 'string', got " ++ goTypeName v)
  | "bool" =>
    match defaultValue with
    | .boolV _ => .ok ()
    | v => .error ("file " ++ filePath ++ ": " ++ fieldName ++
        ": default value must be a boolean for type 'bool', got " ++ goTypeName v)
  | "int" =>
    match defaultValue with
    | .intV _ => .ok ()
    | .floatV q =>
      if q.den ≠ 1 then
        .error ("file " ++ filePath ++ ": " ++ fieldName ++
          ": default value must be a whole number for type 'int', got " ++ goFormatV (.floatV q))
      else .ok ()
    | .str s =>
      if atoiOk s then .ok ()
      else .error ("file " ++ filePath ++ ": " ++ fieldName ++
        ": default value must be an integer for type 'int', got '" ++ s ++ "'")
    | v => .error ("file " ++ filePath ++ ": " ++ fieldName ++
        ": default value must be an integer for type 'int', got " ++ goTypeName v)
  | "stringArray" =>
    match defaultValue with
    | .arr items => checkStringItems fieldName filePath 0 items
    | v => .error ("file " ++ filePath ++ ": " ++ fieldName ++
        ": default value must be an array of strings for type 'stringArray', got " ++ goTypeName v)
  | other => .error ("file " ++ filePath ++ ": " ++ fieldName ++
      ": unsupported type '" ++ other ++ "'")
where
  /-- The element loop of the `stringArray` case. -/
  checkStringItems (fieldName filePath : String) (i : Nat) :
      List YVal → Except String Unit
    | [] => .ok ()
    | .str _ :: rest => checkStringItems fieldName filePath (i + 1) rest
    | v :: _ => .error ("file " ++ filePath ++ ": " ++ fieldName ++
        ": default value array item " ++ toString i ++
        " must be a string for type 'stringArray', got " ++ goTypeName v)

/-- The loop of `validateFlagConfiguration` rejecting empty enum values. -/
def checkEnumNonEmpty (flagName filePath : String) (i : Nat) :
    List String → Except String Unit
  | [] => .ok ()
  | e :: rest =>
    if e = "" then
      .error ("file " ++ filePath ++ ": flag " ++ flagName ++ ": enum value " ++
        toString i ++ " cannot be empty")
    else checkEnumNonEmpty flagName filePath (i + 1) rest

/-- The enum/default consistency tail of `validateFlagConfiguration` (runs
after the empty-enum-value scan): a present default must be a string and
must be one of the enum values. -/
def checkEnumDefault (flag : Flag) (filePath : String) : Except String Unit :=
  match flag.default with
  | some (.str defaultStr) =>
    if !(flag.enum.contains defaultStr) then
      .error ("file " ++ filePath ++ ": flag " ++ flag.name ++ ": default value '" ++
        defaultStr ++ "' must be one of the enum values: [" ++ joinSpace flag.enum ++ "]")
    else .ok ()
  | some _ =>
    .error ("file " ++ filePath ++ ": flag " ++ flag.name ++
      ": default value must be string when enum is specified")
  | none => .ok ()

/-- Model of `validateFlagConfiguration` from the validation file, written as
the same early-return chain of the Go source. -/
def validateFlagConfiguration (flag : Flag) (filePath : String) (index : Nat) :
    Except String Unit :=
  if flag.name = "" then
    .error ("file " ++ filePath ++ ": flag " ++ toString index ++ ": name is required")
  else if flag.type ≠ "" && !(["string", "bool", "int", "stringArray"].contains flag.type) then
    .error ("file " ++ filePath ++ ": flag " ++ flag.name ++ ": invalid type '" ++
      flag.type ++ "' (must be one of: string, bool, int, stringArray)")
  else
    match (match flag.default with
           | some d => validateDefaultValueType flag.name flag.type d filePath
           | none => .ok ()) with
    | .error e => .error e
    | .ok () =>
      if flag.enum ≠ [] then
        if flag.type ≠ "string" && flag.type ≠ "" then
          .error ("file " ++ filePath ++ ": flag " ++ flag.name ++
            ": enum validation only supported on string type, got '" ++ flag.type ++ "'")
        else
          match checkEnumNonEmpty flag.name filePath 0 flag.enum with
          | .error e => .error e
          | .ok () => checkEnumDefault flag filePath
      else .ok ()

/-- Model of `validateArgumentConfiguration` from the validation file (the local
type-defaulting `arg.Type = "string"` mutates only the copy passed in, so it
is modelled by validating against the defaulted type). -/
def validateArgumentConfiguration (arg : Argument) (filePath : String) (index : Nat) :
    Except String Unit := do
  if arg.name = "" then
    throw ("file " ++ filePath ++ ": argument " ++ toString index ++ ": name is required")
  let ty := if arg.type = "" then "string" else arg.type
  if !(["string", "int", "bool"].contains ty) then
    throw ("file " ++ filePath ++ ": argument " ++ arg.name ++ ": invalid type '" ++
      ty ++ "' (must be one of: string, int, bool)")

/-- The duplicate-raw-name scan at the end of `validateCommandConfiguration`:
arguments, then flags, then persistent flags, erroring at the first name
already seen. -/
def checkRawDuplicates (filePath : String) (seen : List String) :
    List String → Except String (List String)
  | [] => .ok seen
  | n :: rest =>
    if seen.contains n then
      .error ("file " ++ filePath ++ ": duplicate field name '" ++ n ++ "'")
    else checkRawDuplicates filePath (seen ++ [n]) rest

/-- Per-element validation loop over flags with indices. -/
def validateFlagsLoop (filePath : String) (i : Nat) : List Flag → Except String Unit
  | [] => .ok ()
  | f :: rest => do
    validateFlagConfiguration f filePath i
    validateFlagsLoop filePath (i + 1) rest

/-- Per-element validation loop over arguments with indices. -/
def validateArgsLoop (filePath : String) (i : Nat) : List Argument → Except String Unit
  | [] => .ok ()
  | a :: rest => do
    validateArgumentConfiguration a filePath i
    validateArgsLoop filePath (i + 1) rest

/-- Model of `validateCommandConfiguration` from the validation file. -/
def validateCommandConfiguration (cmd : Command) (filePath : String) :
    Except String Unit := do
  if cmd.name = "" then
    throw ("file " ++ filePath ++ ": command name is required")
  if cmd.title = "" then
    throw ("file " ++ filePath ++ ": command title is required")
  validateFlagsLoop filePath 0 cmd.flags
  validateFlagsLoop filePath 0 cmd.persistentFlags
  validateArgsLoop filePath 0 cmd.arguments
  let seen ← checkRawDuplicates filePath [] (cmd.arguments.map Argument.name)
  let seen ← checkRawDuplicates filePath seen (cmd.flags.map Flag.name)
  let _ ← checkRawDuplicates filePath seen (cmd.persistentFlags.map Flag.name)
  pure ()

/-! ## Command validation in parser.go (`Parser.validateCommand`) -/

/-- Model of `fieldSource` from parser.go: provenance of a derived field identifier. -/
structure FieldSourceInfo where
  fieldType : String
  originalName : String
deriving DecidableEq, Repr

/-- Lookup in the `fieldNames` map (`map[string]fieldSource`). -/
def seenLookup (seen : List (String × FieldSourceInfo)) (k : String) :
    Option FieldSourceInfo :=
  match seen with
  | [] => none
  | (k', v) :: rest => if k' = k then some v else seenLookup rest k

/-- The argument loop of `Parser.validateCommand`: empty-name check, type
defaulting, PascalCase collision detection against `fieldNames`. -/
def checkArgsLoop (fp : String) (i : Nat) (seen : List (String × FieldSourceInfo)) :
    List Argument → Except String (List Argument × List (String × FieldSourceInfo))
  | [] => .ok ([], seen)
  | a :: rest => do
    if a.name = "" then
      throw ("file " ++ fp ++ ": argument " ++ toString i ++ ": name is required")
    let a' := if a.type = "" then { a with type := "string" } else a
    let fieldName := pascalCase a.name
    match seenLookup seen fieldName with
    | some existing =>
      throw ("file " ++ fp ++ ": duplicate field name '" ++ fieldName ++ "' - argument '" ++
        a.name ++ "' conflicts with " ++ existing.fieldType ++ " '" ++
        existing.originalName ++ "'")
    | none =>
      let seen' := seen ++ [(fieldName, ⟨"argument", a.name⟩)]
      let (rest', seen'') ← checkArgsLoop fp (i + 1) seen' rest
      pure (a' :: rest', seen'')

/-- The flag loop of `Parser.validateCommand`: empty-name check, type
defaulting, PascalCase collision detection, enum-on-non-string check. -/
def checkFlagsLoop (fp : String) (i : Nat) (seen : List (String × FieldSourceInfo)) :
    List Flag → Except String (List Flag × List (String × FieldSourceInfo))
  | [] => .ok ([], seen)
  | f :: rest => do
    if f.name = "" then
      throw ("file " ++ fp ++ ": flag " ++ toString i ++ ": name is required")
    let f' := if f.type = "" then { f with type := "string" } else f
    let fieldName := pascalCase f.name
    match seenLookup seen fieldName with
    | some existing =>
      throw ("file " ++ fp ++ ": duplicate field name '" ++ fieldName ++ "' - flag '" ++
        f.name ++ "' conflicts with " ++ existing.fieldType ++ " '" ++
        existing.originalName ++ "'")
    | none =>
      let seen' := seen ++ [(fieldName, ⟨"flag", f.name⟩)]
      if f'.enum ≠ [] && f'.type ≠ "string" then
        throw ("file " ++ fp ++ ": flag " ++ f.name ++
          ": enum is only supported for string flags")
      let (rest', seen'') ← checkFlagsLoop fp (i + 1) seen' rest
      pure (f' :: rest', seen'')

/-- Model of `Parser.validateCommand` from parser.go.  The Go function mutates the
command in place (defaulting empty argument/flag types) and returns an
error; modelled as returning the updated command.  Note that the PascalCase
collision scan covers `cmd.Arguments` and `cmd.Flags` only — persistent
flags are not part of it; they are checked (by raw name) only inside
`validateCommandConfiguration`. -/
def validateCommand (cmd : Command) : Except String Command := do
  let fp := cmd.filePath
  if cmd.name = "" then
    throw ("file " ++ fp ++ ": command name is required")
  if cmd.title = "" then
    throw ("file " ++ fp ++ ": command title is required")
  let (args', seen) ← checkArgsLoop fp 0 [] cmd.arguments
  let (flags', _) ← checkFlagsLoop fp 0 seen cmd.flags
  let cmd' := { cmd with arguments := args', flags := flags' }
  validateCommandConfiguration cmd' fp
  pure cmd'

/-! ## Frontmatter extraction (`Parser.ParseContent` and helpers) -/

/-- The string-array branch of `Parser.parseArguments`. -/
def parseStringArgs (fp : String) (i : Nat) : List YVal → Except String (List Argument)
  | [] => .ok []
  | .str s :: rest => do
    let more ← parseStringArgs fp (i + 1) rest
    pure ({ name := s, description := "", required := true, type := "string" } :: more)
  | _ :: _ =>
    .error ("file " ++ fp ++ ": argument " ++ toString i ++
      ": mixed array formats not supported (expected all strings)")

/-- One object-format argument mapping. -/
def parseObjectArg (fp : String) (i : Nat) (m : List (YVal × YVal)) :
    Except String Argument := do
  let name ← match ylookup m "name" with
    | some (.str s) => pure s
    | some _ => throw ("file " ++ fp ++ ": argument " ++ toString i ++
        ": name must be a string")
    | none => throw ("file " ++ fp ++ ": argument " ++ toString i ++ ": name is required")
  let description := match ylookup m "description" with
    | some (.str s) => s
    | _ => ""
  let required := match ylookup m "required" with
    | some (.boolV b) => b
    | _ => false
  let ty := match ylookup m "type" with
    | some (.str s) => s
    | _ => "string"
  pure { name, description, required, type := ty }

/-- The object-array branch of `Parser.parseArguments`. -/
def parseObjectArgs (fp : String) (i : Nat) : List YVal → Except String (List Argument)
  | [] => .ok []
  | .mp m :: rest => do
    let a ← parseObjectArg fp i m
    let more ← parseObjectArgs fp (i + 1) rest
    pure (a :: more)
  | _ :: _ =>
    .error ("file " ++ fp ++ ": argument " ++ toString i ++
      ": mixed array formats not supported (expected all objects)")

/-- Model of `Parser.parseArguments` from parser.go: dispatch on the shape of the
first element. -/
def parseArguments (rawArgs : YVal) (fp : String) : Except String (List Argument) :=
  match rawArgs with
  | .arr [] => .ok []
  | .arr (x :: rest) =>
    match x with
    | .str _ => parseStringArgs fp 0 (x :: rest)
    | .mp _ => parseObjectArgs fp 0 (x :: rest)
    | _ => .error ("file " ++ fp ++ ": unsupported argument format - expected string or object")
  | _ => .error ("file " ++ fp ++ ": arguments must be an array")

/-- The enum-element loop of the flag parser: string elements are kept,
non-string scalars coerced via `%v` (deferred to validation, per the source
comment). -/
def parseEnumVals : List YVal → List String
  | [] => []
  | .str s :: rest => s :: parseEnumVals rest
  | e :: rest => goFormatV e :: parseEnumVals rest

/-- One flag mapping, as parsed by the (twice-inlined, identical up to the
`label` used in messages) flag loop of `Parser.ParseContent`.  Non-string
`shorthand`/`description`/`type`/`required` values are silently ignored; a
`default` key holding YAML `null` leaves the Go `interface{}` nil. -/
def parseFlagEntry (label fp : String) (i : Nat) (m : List (YVal × YVal)) :
    Except String Flag := do
  let name ← match ylookup m "name" with
    | some (.str s) => pure s
    | some _ => throw ("file " ++ fp ++ ": " ++ label ++ " " ++ toString i ++
        ": name must be a string")
    | none => throw ("file " ++ fp ++ ": " ++ label ++ " " ++ toString i ++
        ": name is required")
  let shorthand := match ylookup m "shorthand" with
    | some (.str s) => s
    | _ => ""
  let description := match ylookup m "description" with
    | some (.str s) => s
    | _ => ""
  let ty := match ylookup m "type" with
    | some (.str s) => s
    | _ => "string"
  let dflt := match ylookup m "default" with
    | some .nullV => none
    | some v => some v
    | none => none
  let required := match ylookup m "required" with
    | some (.boolV b) => b
    | _ => false
  let enum := match ylookup m "enum" with
    | some (.arr xs) => parseEnumVals xs
    | _ => []
  pure { name, shorthand, description, type := ty, default := dflt, required, enum }

/-- The flag-array loop of `Parser.ParseContent`: elements that are not
mappings are skipped silently (the index still advances with the array
position). -/
def parseFlagEntries (label fp : String) (i : Nat) : List YVal → Except String (List Flag)
  | [] => .ok []
  | .mp m :: rest => do
    let f ← parseFlagEntry label fp i m
    let more ← parseFlagEntries label fp (i + 1) rest
    pure (f :: more)
  | _ :: rest => parseFlagEntries label fp (i + 1) rest

/-- Result of the manual frontmatter split at the top of
`Parser.ParseContent`. -/
inductive FMSplit where
  | noFM
  | invalid
  | okFM (front body : String)
deriving DecidableEq, Repr

/-- The delimiter handling of `Parser.ParseContent`: require a leading
`---`, then split the remainder at the first further `---`
(`strings.SplitN(content[3:], "---", 2)`); both halves trimmed. -/
def splitFrontmatter (content : String) : FMSplit :=
  if strStartsWith content "---" then
    match splitOnceL "---".data (content.data.drop 3) with
    | none => .invalid
    | some (front, body) => .okFM (trimSpace ⟨front⟩) (trimSpace ⟨body⟩)
  else .noFM

/-- The command-name extraction of `Parser.ParseContent`: the string value
of the `name` key, or `""` when the key is absent or not a string. -/
def extractName (commandMap : List (YVal × YVal)) : String :=
  match ylookup commandMap "name" with
  | some (.str s) => s
  | _ => ""

/-- The alias-extraction loop of `Parser.ParseContent`: string elements of
an `aliases` array are kept, everything else silently dropped. -/
def extractAliases : Option YVal → List String
  | some (.arr xs) =>
    xs.filterMap (fun a =>
      match a with
      | .str s => some s
      | _ => none)
  | _ => []

/-- The field-extraction and command-assembly part of `Parser.ParseContent`,
applied to the unmarshalled frontmatter `rawData` and the (trimmed) body. -/
def buildCommand (rawData : List (String × YVal)) (body fp : String) :
    Except String (Option Command) :=
  let title := match slookup rawData "title" with
    | some (.str t) => t
    | _ => ""
  match slookup rawData "command" with
  | none => .ok none
  | some (.mp commandMap) =>
    let name := extractName commandMap
    if name = "" then .ok none
    else do
      let aliases := extractAliases (ylookup commandMap "aliases")
      let hidden := match ylookup commandMap "hidden" with
        | some (.boolV b) => b
        | _ => false
      let argsE : Except String (List Argument) :=
        match ylookup commandMap "arguments" with
        | some rawArgs =>
          Except.mapError (fun e => "parsing arguments: " ++ e) (parseArguments rawArgs fp)
        | none => .ok []
      let flagsE : Except String (List Flag) :=
        match ylookup commandMap "flags" with
        | some (.arr xs) => parseFlagEntries "flag" fp 0 xs
        | _ => .ok []
      let pflagsE : Except String (List Flag) :=
        match ylookup commandMap "persistent_flags" with
        | some (.arr xs) => parseFlagEntries "persistent_flag" fp 0 xs
        | _ => .ok []
      let arguments ← argsE
      let flags ← flagsE
      let persistentFlags ← pflagsE
      let cmd : Command :=
        { title, name, aliases, hidden, arguments, flags, persistentFlags
          description := body, filePath := fp
          isRootCommand := false, commandPath := "" }
      match validateCommand cmd with
      | .error e => .error ("validation failed: " ++ e)
      | .ok cmd' => .ok (some cmd')
  | some _ => .error "command section must be an object"

/-- Model of `Parser.ParseContent` from parser.go, parameterised by the external YAML
unmarshaller (`yaml.Unmarshal` into `map[string]interface{}`): returns
`(nil, nil)` (here `.ok none`) when the document has no frontmatter or no
command name, an error for a malformed block, and the validated command
otherwise. -/
def parseContent (yamlParse : String → Except String (List (String × YVal)))
    (content fp : String) : Except String (Option Command) :=
  match splitFrontmatter content with
  | .noFM => .ok none
  | .invalid => .error "invalid frontmatter format"
  | .okFM front body =>
    match yamlParse front with
    | .error e => .error ("parsing frontmatter: " ++ e)
    | .ok rawData => buildCommand rawData body fp

/-! ## Discovery classification (`Parser.ParseDirectory` walk callback) -/

/-- How the walk callback of `Parser.ParseDirectory` treats one file path
(relative to the input root). -/
inductive FileClass where
  | notDocFile
  | binaryRoot
  | groupRoot (commandPath : String)
  | skippedIndexLike
  | leaf
deriving DecidableEq, Repr

/-- The per-file classification performed by `Parser.ParseDirectory`:
binary root command at the tree root, group root command for files matching
the index convention inside subdirectories, silent skip for other
`index.md`/`_index.md` files in subdirectories, leaf otherwise. -/
def classifyPath (cfg : Config) (path : String) : FileClass :=
  if !(strEndsWith path ".md") then .notDocFile
  else
    let dir := pathDir path
    let filename := pathBase path
    if dir = "." && cfg.BinaryName ≠ "" && filename = cfg.BinaryName ++ ".md" then
      .binaryRoot
    else if dir ≠ "." && cfg.IsIndexFile filename (pathBase dir) then
      .groupRoot (pathBase dir)
    else if (filename = "_index.md" || filename = "index.md") && dir ≠ "." then
      .skippedIndexLike
    else .leaf

/-! ## Incremental regeneration oracle and the generation loop
(`Generator.shouldRegenerateFile`, `Generator.Generate`) -/

/-- Result of an `os.Stat` call: found with a modification time, not
existing (`os.IsNotExist`), or failing with any other error. -/
inductive StatRes where
  | found (mtime : Int)
  | notExist
  | errOther
deriving DecidableEq, Repr

/-- Model of `Generator.shouldRegenerateFile` from the generator file, over an
abstract `stat` oracle; `force` is `g.force` and `suffix` is
`g.config.GeneratedFileSuffix`.  Error strings model the `fmt.Errorf`
wrapping prefixes. -/
def shouldRegenerateFile (force : Bool) (suffix : String) (stat : String → StatRes)
    (sourceFile outputFile : String) : Except String Bool :=
  if force then .ok true
  else if strEndsWith outputFile suffix then .ok true
  else
    match stat outputFile with
    | .notExist => .ok true
    | .errOther => .error ("checking output file " ++ outputFile)
    | .found outputTime =>
      match stat sourceFile with
      | .found sourceTime => .ok (decide (outputTime < sourceTime))
      | _ => .error ("checking source file " ++ sourceFile)

/-- Model of `Generator.getOutputFilename` from the generator file. -/
def getOutputFilename (cfg : Config) (filePath : String) : String :=
  let dir := pathDir filePath
  let base := pathBase filePath
  let nameWithoutExt : String := ⟨base.data.take (base.data.length - (pathExt filePath).data.length)⟩
  let filename := nameWithoutExt ++ cfg.GeneratedFileSuffix
  if dir = "." then pathJoin2 cfg.OutputDir filename
  else pathJoin3 cfg.OutputDir dir filename

/-- Model of `Generator.getSourceFilePath` from the generator file. -/
def getSourceFilePath (cfg : Config) (cmd : Command) : String :=
  pathJoin2 cfg.InputDir cmd.filePath

/-- One file of the modelled filesystem: its contents and its modification
time. -/
structure FSEntry where
  content : String
  mtime : Int
deriving DecidableEq, Repr

/-- The modelled filesystem state: an association of paths to entries. -/
abbrev FSState := List (String × FSEntry)

/-- Lookup of a path in the modelled filesystem. -/
def fsLookup : FSState → String → Option FSEntry
  | [], _ => none
  | (p, e) :: rest, q => if p = q then some e else fsLookup rest q

/-- The `os.Stat` view of the modelled filesystem (no I/O failures; the
oracle is also analysed over arbitrary `stat` functions with `errOther`). -/
def fsStat (fs : FSState) (p : String) : StatRes :=
  match fsLookup fs p with
  | some e => .found e.mtime
  | none => .notExist

/-- Model of `os.WriteFile`: create or overwrite, stamping the current time. -/
def fsWrite : FSState → String → String → Int → FSState
  | [], p, c, now => [(p, ⟨c, now⟩)]
  | (q, e) :: rest, p, c, now =>
    if q = p then (q, ⟨c, now⟩) :: rest
    else (q, e) :: fsWrite rest p c now

/-- Insert a command into the group of its output file, appending in
iteration order.  Go accumulates the groups in a `map[string][]*Command`
whose iteration order is unspecified; the association list keeps
first-insertion order, which is immaterial to the stated properties. -/
def upsertGroup : List (String × List Command) → String → Command →
    List (String × List Command)
  | [], key, c => [(key, [c])]
  | (k, cs) :: rest, key, c =>
    if k = key then (k, cs ++ [c]) :: rest
    else (k, cs) :: upsertGroup rest key c

/-- Model of `Generator.groupCommandsByFile` from the generator file. -/
def groupCommandsByFile (cfg : Config) (cmds : List Command) :
    List (String × List Command) :=
  cmds.foldl (fun g c => upsertGroup g (getOutputFilename cfg c.filePath) c) []

/-- The inner regeneration-need loop of `Generator.Generate`: the oracle per
constituent source file, short-circuiting at the first `true`, wrapping
oracle errors with the output filename. -/
def anyNeedsRegen (force : Bool) (cfg : Config) (stat : String → StatRes)
    (outputFile : String) : List Command → Except String Bool
  | [] => .ok false
  | c :: rest => do
    let b ← (shouldRegenerateFile force cfg.GeneratedFileSuffix stat
        (getSourceFilePath cfg c) outputFile).mapError
        (fun e => "checking if " ++ outputFile ++ " needs regeneration: " ++ e)
    if b then pure true else anyNeedsRegen force cfg stat outputFile rest

/-- The per-group loop of `Generator.Generate`: decide, then either write the
rendered content (`render` models the deterministic `generateFileContent`;
template and I/O failures are out of the modelled scope) or count the group
as skipped. -/
def genLoop (cfg : Config) (force : Bool) (render : List Command → String) (now : Int) :
    FSState → Nat → List String → List (String × List Command) →
    Except String (FSState × Nat × List String)
  | fs, skipped, written, [] => .ok (fs, skipped, written)
  | fs, skipped, written, (filename, cmds) :: rest => do
    let needs ← anyNeedsRegen force cfg (fsStat fs) filename cmds
    if needs then
      genLoop cfg force render now (fsWrite fs filename (render cmds) now) skipped
        (written ++ [filename]) rest
    else
      genLoop cfg force render now fs (skipped + 1) written rest

/-- Model of `Generator.Generate` from the generator file, after discovery: group the
commands by output file, gate each group through the oracle, write the
regenerated groups, and report the final filesystem, the skipped-group
count (`g.skippedFiles`) and the list of written output files. -/
def generateRun (cfg : Config) (force : Bool) (render : List Command → String)
    (cmds : List Command) (fs : FSState) (now : Int) :
    Except String (FSState × Nat × List String) :=
  genLoop cfg force render now fs 0 [] (groupCommandsByFile cfg cmds)

/-! ## Shared proof helpers -/

/-- Binding an error propagates it (definitional unfolding of the `Except`
monad, recorded for `simp`). -/
@[simp] theorem except_error_bind {ε α β : Type} (e : ε) (f : α → Except ε β) :
    (Except.error e : Except ε α) >>= f = Except.error e := rfl

/-- Binding a success applies the continuation. -/
@[simp] theorem except_ok_bind {ε α β : Type} (a : α) (f : α → Except ε β) :
    (Except.ok a : Except ε α) >>= f = f a := rfl

/-- Unfolding of `throw` for the `Except` monad. -/
@[simp] theorem except_throw_def {ε α : Type} (e : ε) :
    (throw e : Except ε α) = Except.error e := rfl

/-- Unfolding of `pure` for the `Except` monad. -/
@[simp] theorem except_pure_def {ε α : Type} (a : α) :
    (pure a : Except ε α) = Except.ok a := rfl

/-! ## C9: PascalCase derivation -/

/-- C9: the PascalCase identifier derivation splits only on `-`, `_` and
space (not on case boundaries), capitalizes the first character of each
token and lowercases the rest, and concatenates: `pascalCase "file-name" =
"FileName"`, `pascalCase "file_name" = "FileName"`, and
`pascalCase "fileName" = "Filename"`. -/
theorem C9_pascalCase_separators :
    pascalCase "file-name" = "FileName" ∧
    pascalCase "file_name" = "FileName" ∧
    pascalCase "fileName" = "Filename" := by
  refine ⟨?_, ?_, ?_⟩ <;> decide

/-! ## C3: the regeneration oracle decision -/

/-- Forgetting the error message of an oracle outcome, for comparison with
the message-free decision the spec describes. -/
def outcomeOf (r : Except String Bool) : Except Unit Bool :=
  r.mapError fun _ => ()

/-- The regeneration decision exactly as the spec states it (§4.5): rule 1
`forceAll` ⇒ regenerate; rule 2 machine-suffixed output ⇒ regenerate; rule 3
missing output ⇒ regenerate; rule 4 regenerate iff the source timestamp is
strictly after the output timestamp; any other stat failure (including a
missing source) is an error, never a silent skip. -/
def specOracleDecision (force : Bool) (suffix : String) (stat : String → StatRes)
    (sourceFile outputFile : String) : Except Unit Bool :=
  if force then .ok true
  else if strEndsWith outputFile suffix then .ok true
  else
    match stat outputFile with
    | .notExist => .ok true
    | .errOther => .error ()
    | .found outputTime =>
      match stat sourceFile with
      | .found sourceTime => .ok (decide (sourceTime > outputTime))
      | _ => .error ()

/-- C3: the regeneration decision of `shouldRegenerateFile` for a
`(sourcePath, outputPath, forceAll)` triple is exactly the cascade the spec
states: forceAll, then the generated-file suffix, then output existence,
then strict timestamp comparison, with every other stat failure surfaced as
an error rather than as a silent skip. -/
theorem C3_oracle_decision (force : Bool) (suffix : String) (stat : String → StatRes)
    (sourceFile outputFile : String) :
    outcomeOf (shouldRegenerateFile force suffix stat sourceFile outputFile) =
      specOracleDecision force suffix stat sourceFile outputFile := by
  unfold shouldRegenerateFile specOracleDecision outcomeOf
  cases force
  · cases hs : strEndsWith outputFile suffix
    · cases ho : stat outputFile
      · cases hsrc : stat sourceFile <;> simp [Except.mapError]
      · simp [Except.mapError]
      · simp [Except.mapError]
    · simp [Except.mapError]
  · simp [Except.mapError]

/-! ## C5: discovery classification -/

/-- A configuration exercising the discovery classification: binary name
`mybinary`, index convention `directory`. -/
def cfgC5 : Config :=
  { DefaultConfig with BinaryName := "mybinary" }

/-- C5 counterexample: `auth/_index.md` carries the documentation extension,
is not the binary root file and does not match the `directory` index
convention for `auth` (whose patterns are `auth.md` and `index.md`), so the
claim says it must be parsed as a plain leaf — but the walk callback skips
it without parsing. -/
theorem C5_counterexample :
    strEndsWith "auth/_index.md" ".md" = true ∧
    cfgC5.IsIndexFile (pathBase "auth/_index.md") (pathBase (pathDir "auth/_index.md")) = false ∧
    pathBase "auth/_index.md" ≠ cfgC5.BinaryName ++ ".md" ∧
    classifyPath cfgC5 "auth/_index.md" = .skippedIndexLike ∧
    classifyPath cfgC5 "auth/_index.md" ≠ .leaf := by
  refine ⟨?_, ?_, ?_, ?_, ?_⟩ <;> decide

/-- C5 amended: during discovery a root-level file named
`<binaryName>.md` is classified as the binary root command (empty
command-path prefix), a subdirectory file matching the configured index
convention is classified as a group root command with prefix equal to the
directory base name, and every other file with the documentation extension
is parsed as a plain leaf — except files named `index.md` or `_index.md`
inside subdirectories (not matching the convention), which are skipped
without being parsed. -/
theorem C5_amended_classification (cfg : Config) (path : String) :
    (strEndsWith path ".md" = true → pathDir path = "." → cfg.BinaryName ≠ "" →
      pathBase path = cfg.BinaryName ++ ".md" →
      classifyPath cfg path = .binaryRoot) ∧
    (strEndsWith path ".md" = true → pathDir path ≠ "." →
      cfg.IsIndexFile (pathBase path) (pathBase (pathDir path)) = true →
      classifyPath cfg path = .groupRoot (pathBase (pathDir path))) ∧
    (strEndsWith path ".md" = true →
      ¬(pathDir path = "." ∧ cfg.BinaryName ≠ "" ∧ pathBase path = cfg.BinaryName ++ ".md") →
      ¬(pathDir path ≠ "." ∧ cfg.IsIndexFile (pathBase path) (pathBase (pathDir path)) = true) →
      ¬((pathBase path = "_index.md" ∨ pathBase path = "index.md") ∧ pathDir path ≠ ".") →
      classifyPath cfg path = .leaf) ∧
    (strEndsWith path ".md" = true →
      ¬(pathDir path ≠ "." ∧ cfg.IsIndexFile (pathBase path) (pathBase (pathDir path)) = true) →
      (pathBase path = "_index.md" ∨ pathBase path = "index.md") → pathDir path ≠ "." →
      classifyPath cfg path = .skippedIndexLike) := by
  refine ⟨?_, ?_, ?_, ?_⟩
  · intro hmd hdir hbin hname
    simp [classifyPath, hmd, hdir, hbin, hname]
  · intro hmd hdir hidx
    simp [classifyPath, hmd, hdir, hidx]
  · intro hmd hnbin hnidx hnskip
    push_neg at hnbin hnidx hnskip
    simp only [classifyPath, hmd, Bool.not_eq_true]
    by_cases hdir : pathDir path = "."
    · simp only [hdir]
      by_cases hbin : cfg.BinaryName = ""
      · simp [hbin]
      · have hname := hnbin hdir hbin
        simp [hbin, hname]
    · have hidx := hnidx hdir
      have h1 : pathBase path ≠ "_index.md" := fun h => hdir (hnskip (Or.inl h))
      have h2 : pathBase path ≠ "index.md" := fun h => hdir (hnskip (Or.inr h))
      simp [hdir, hidx, h1, h2]
  · intro hmd hnidx hskip hdir
    push_neg at hnidx
    have hidx : cfg.IsIndexFile (pathBase path) (pathBase (pathDir path)) = false :=
      Bool.eq_false_iff.mpr (hnidx hdir)
    rcases hskip with h | h
    · rw [h] at hidx
      simp [classifyPath, hmd, hdir, hidx, h]
    · rw [h] at hidx
      simp [classifyPath, hmd, hdir, hidx, h]

/-- C5 witness: the amended classification instantiated on the spec's
example tree — `mybinary.md` at the root, `docs/auth/auth.md`,
`docs/auth/login.md`, and the skipped `auth/_index.md`. -/
theorem C5_amended_classification_witness :
    classifyPath cfgC5 "mybinary.md" = .binaryRoot ∧
    classifyPath cfgC5 "docs/auth/auth.md" = .groupRoot "auth" ∧
    classifyPath cfgC5 "docs/auth/login.md" = .leaf ∧
    classifyPath cfgC5 "auth/_index.md" = .skippedIndexLike :=
  ⟨(C5_amended_classification cfgC5 "mybinary.md").1
     (by decide) (by decide) (by decide) (by decide),
   (C5_amended_classification cfgC5 "docs/auth/auth.md").2.1
     (by decide) (by decide) (by decide),
   (C5_amended_classification cfgC5 "docs/auth/login.md").2.2.1
     (by decide) (by decide) (by decide) (by decide),
   (C5_amended_classification cfgC5 "auth/_index.md").2.2.2
     (by decide) (by decide) (by decide) (by decide)⟩

/-! ## C1: namespace consistency under the directory strategy -/

/-- Under the `directory` strategy the package name is a function of the
source file's directory alone. -/
theorem getPackageName_directory (c : Config) (h : c.PackageStrategy = "directory")
    (p : String) :
    c.GetPackageName p = if pathDir p = "." then c.Package else goPackageIdent (pathDir p) := by
  simp only [Config.GetPackageName, h]

/-- C1: under the `directory` strategy, any two source paths with the same
parent directory resolve to the same namespace (in particular a directory's
index file and its sibling leaves), root-level files resolve to the
configured base package, and the `dev/selectors` example files all resolve
to `dev_selectors`. -/
theorem C1_directory_namespace_consistency (cfg : Config)
    (h : cfg.PackageStrategy = "directory") :
    (∀ p q : String, pathDir p = pathDir q →
      cfg.GetPackageName p = cfg.GetPackageName q) ∧
    (∀ p : String, pathDir p = "." → cfg.GetPackageName p = cfg.Package) ∧
    cfg.GetPackageName "dev/selectors/_index.md" = "dev_selectors" ∧
    cfg.GetPackageName "dev/selectors/generate.md" = "dev_selectors" ∧
    cfg.GetPackageName "dev/selectors/test.md" = "dev_selectors" := by
  have key := getPackageName_directory cfg h
  refine ⟨?_, ?_, ?_, ?_, ?_⟩
  · intro p q hpq
    rw [key p, key q, hpq]
  · intro p hp
    rw [key p, if_pos hp]
  · rw [key _, if_neg (by decide)]
    decide
  · rw [key _, if_neg (by decide)]
    decide
  · rw [key _, if_neg (by decide)]
    decide

/-- C1 witness: the theorem instantiated at the default configuration
(`directory` strategy), on the example paths. -/
theorem C1_directory_namespace_consistency_witness :
    DefaultConfig.GetPackageName "dev/selectors/_index.md" = "dev_selectors" ∧
    DefaultConfig.GetPackageName "dev/selectors/_index.md" =
      DefaultConfig.GetPackageName "dev/selectors/generate.md" ∧
    DefaultConfig.GetPackageName "root.md" = DefaultConfig.Package :=
  ⟨(C1_directory_namespace_consistency DefaultConfig rfl).2.2.1,
   (C1_directory_namespace_consistency DefaultConfig rfl).1
     "dev/selectors/_index.md" "dev/selectors/generate.md" (by decide),
   (C1_directory_namespace_consistency DefaultConfig rfl).2.1 "root.md" (by decide)⟩

/-! ## C8: the path strategy -/

/-- Under the `path` strategy the package name is the directory-based
identifier for subdirectory index files and the full-path identifier
otherwise. -/
theorem getPackageName_path (c : Config) (h : c.PackageStrategy = "path") (p : String) :
    c.GetPackageName p =
      if pathDir p ≠ "." && c.IsIndexFile (pathBase p) (pathBase (pathDir p)) then
        goPackageIdent (pathDir p)
      else goPackageIdent (trimSuffixStr p (pathExt p)) := by
  simp only [Config.GetPackageName, h]

/-- A file named `c.md` in a directory named `b` never matches the index
patterns, whatever the configured index format. -/
theorem isIndexFile_c_in_b (c : Config) : c.IsIndexFile "c.md" "b" = false := by
  unfold Config.IsIndexFile Config.GetIndexPatterns
  split <;> decide

/-- C8: under the `path` strategy, a subdirectory index file (per the
configured convention) resolves exactly as under the `directory` strategy,
while every non-index file resolves to its full relative path minus
extension run through the shared identifier conversion (`/` and `-`
replaced by `_`): `a/b/c.md` resolves to `a_b_c`. -/
theorem C8_path_strategy (cfg : Config) (h : cfg.PackageStrategy = "path") :
    (∀ p : String, pathDir p ≠ "." →
      cfg.IsIndexFile (pathBase p) (pathBase (pathDir p)) = true →
      cfg.GetPackageName p =
        Config.GetPackageName { cfg with PackageStrategy := "directory" } p) ∧
    (∀ p : String,
      pathDir p = "." ∨ cfg.IsIndexFile (pathBase p) (pathBase (pathDir p)) = false →
      cfg.GetPackageName p = goPackageIdent (trimSuffixStr p (pathExt p))) ∧
    cfg.GetPackageName "a/b/c.md" = "a_b_c" := by
  refine ⟨?_, ?_, ?_⟩
  · intro p hdir hidx
    rw [getPackageName_path cfg h p,
      getPackageName_directory { cfg with PackageStrategy := "directory" } rfl p]
    simp [hdir, hidx]
  · intro p hcase
    rw [getPackageName_path cfg h p]
    rcases hcase with hdot | hidx
    · simp [hdot]
    · simp [hidx]
  · rw [getPackageName_path cfg h _]
    have hb : pathBase "a/b/c.md" = "c.md" := by decide
    have hd : pathBase (pathDir "a/b/c.md") = "b" := by decide
    rw [hb, hd, isIndexFile_c_in_b cfg]
    simp only [Bool.and_false, Bool.false_eq_true, if_false]
    decide

/-- A configuration with the `path` strategy, for the C8 witness. -/
def cfgPathStrategy : Config :=
  { DefaultConfig with PackageStrategy := "path" }

/-- C8 witness: the theorem instantiated at a `path`-strategy configuration,
on a subdirectory index file and on the example leaf path. -/
theorem C8_path_strategy_witness :
    cfgPathStrategy.GetPackageName "a/b/c.md" = "a_b_c" ∧
    cfgPathStrategy.GetPackageName "dev/selectors/selectors.md" =
      Config.GetPackageName { cfgPathStrategy with PackageStrategy := "directory" }
        "dev/selectors/selectors.md" :=
  ⟨(C8_path_strategy cfgPathStrategy rfl).2.2,
   (C8_path_strategy cfgPathStrategy rfl).1 "dev/selectors/selectors.md"
     (by decide) (by decide)⟩

/-! ## C7: flag type/default/enum consistency -/

/-- The empty-enum-value scan succeeds when no enum value is empty. -/
theorem checkEnumNonEmpty_ok (nm fp : String) (l : List String)
    (h : ∀ e ∈ l, e ≠ "") : ∀ i : Nat, checkEnumNonEmpty nm fp i l = .ok () := by
  induction l with
  | nil => intro i; rfl
  | cons e rest ih =>
    intro i
    unfold checkEnumNonEmpty
    rw [if_neg (h e (List.mem_cons_self e rest))]
    exact ih (fun x hx => h x (List.mem_cons_of_mem e hx)) (i + 1)

/-- C7: flag validation rejects a non-empty enum on a non-string type,
rejects an enum flag whose present string default is outside the enum list
with a message naming the default and the full legal set, rejects
`{type: int, default: "not-a-number"}`, and accepts
`{type: int, default: 42}`. -/
theorem C7_flag_validation :
    (∀ (fl : Flag) (fp : String) (i : Nat),
      fl.type ≠ "string" → fl.type ≠ "" → fl.enum ≠ [] →
      (validateFlagConfiguration fl fp i).isOk = false) ∧
    (∀ (nm sh ds fp d : String) (req : Bool) (enums : List String) (i : Nat),
      nm ≠ "" → enums ≠ [] → (∀ e ∈ enums, e ≠ "") → enums.contains d = false →
      validateFlagConfiguration
          { name := nm, shorthand := sh, description := ds, type := "string",
            default := some (.str d), required := req, enum := enums } fp i =
        .error ("file " ++ fp ++ ": flag " ++ nm ++ ": default value '" ++ d ++
          "' must be one of the enum values: [" ++ joinSpace enums ++ "]")) ∧
    validateFlagConfiguration
        { name := "count", shorthand := "", description := "", type := "int",
          default := some (.str "not-a-number"), required := false, enum := [] } "f" 0 =
      .error "file f: count: default value must be an integer for type 'int', got 'not-a-number'" ∧
    validateFlagConfiguration
        { name := "count", shorthand := "", description := "", type := "int",
          default := some (.intV 42), required := false, enum := [] } "f" 0 = .ok () := by
  refine ⟨?_, ?_, by rfl, by rfl⟩
  · intro fl fp i hty hne henum
    unfold validateFlagConfiguration
    by_cases hn : fl.name = ""
    · simp [hn, Except.isOk, Except.toBool]
    · rw [if_neg hn]
      by_cases hv : (["string", "bool", "int", "stringArray"].contains fl.type) = true
      · simp only [hv, Bool.not_true, Bool.and_false, Bool.false_eq_true, if_false]
        cases hdv : (match fl.default with
            | some d => validateDefaultValueType fl.name fl.type d fp
            | none => Except.ok ()) with
        | error e => simp [Except.isOk, Except.toBool]
        | ok u =>
          cases u
          simp [henum, hty, hne, Except.isOk, Except.toBool]
      · have hcf : (["string", "bool", "int", "stringArray"].contains fl.type) = false :=
          Bool.eq_false_iff.mpr hv
        have hcond : (decide (fl.type ≠ "") &&
            !(["string", "bool", "int", "stringArray"].contains fl.type)) = true := by
          rw [hcf]
          simp [hne]
        rw [if_pos hcond]
        simp [Except.isOk, Except.toBool]
  · intro nm sh ds fp d req enums i hn henum hall hd
    unfold validateFlagConfiguration
    rw [if_neg hn]
    simp only [ne_eq, decide_not]
    norm_num
    rw [show validateDefaultValueType nm "string" (YVal.str d) fp = Except.ok () from rfl]
    have hdm : d ∉ enums := by simpa using hd
    simp [henum, checkEnumNonEmpty_ok nm fp enums hall 0, checkEnumDefault, hdm]

/-- C7 witness: the theorem instantiated at the spec's example flags
`{type: int, enum: ["a"]}` and
`{type: string, enum: ["debug","info"], default: "invalid"}`. -/
theorem C7_flag_validation_witness :
    (validateFlagConfiguration
        { name := "mode", shorthand := "", description := "", type := "int",
          default := none, required := false, enum := ["a"] } "f" 0).isOk = false ∧
    validateFlagConfiguration
        { name := "level", shorthand := "", description := "", type := "string",
          default := some (.str "invalid"), required := false,
          enum := ["debug", "info"] } "f" 0 =
      .error "file f: flag level: default value 'invalid' must be one of the enum values: [debug info]" :=
  ⟨C7_flag_validation.1
     { name := "mode", shorthand := "", description := "", type := "int",
       default := none, required := false, enum := ["a"] }
     "f" 0 (by decide) (by decide) (by decide),
   C7_flag_validation.2.1 "level" "" "" "f" "invalid" false ["debug", "info"] 0
     (by decide) (by decide) (by decide) (by decide)⟩

/-! ## C4: identifier collision detection -/

/-- C4 counterexample: `user_name` (argument) and `user-name` (persistent
flag) derive the same PascalCase identifier `UserName`, yet the command
passes validation — the PascalCase collision scan does not cover persistent
flags, and the raw-name duplicate scan sees two different names. -/
theorem C4_persistent_collision_counterexample :
    pascalCase "user_name" = pascalCase "user-name" ∧
    (validateCommand
        { title := "T", name := "test", aliases := [], hidden := false,
          arguments := [{ name := "user_name", description := "", required := false,
                          type := "string" }],
          flags := [],
          persistentFlags := [{ name := "user-name", shorthand := "", description := "",
                                type := "string", default := none, required := false,
                                enum := [] }],
          description := "", filePath := "test.md", isRootCommand := false,
          commandPath := "" }).isOk = true :=
  ⟨by decide, by rfl⟩

/-- C4 amended: validation derives a PascalCase identifier for every
argument name and every local flag name — not for persistent-flag names —
and when two derived identifiers coincide it errors naming the colliding
derived identifier, both original field names and both field kinds; an
argument `user_name` and a local flag `user-name` therefore fail, while
`file`/`filename` pass, a persistent flag is caught only by raw-name
equality, and an argument `user_name` with a persistent flag `user-name`
passes. -/
theorem C4_collision_detection (fp : String) :
    (∀ a f : String, a ≠ "" → f ≠ "" → pascalCase a = pascalCase f →
      validateCommand
          { title := "T", name := "cmd", aliases := [], hidden := false,
            arguments := [{ name := a, description := "", required := false,
                            type := "string" }],
            flags := [{ name := f, shorthand := "", description := "", type := "string",
                        default := none, required := false, enum := [] }],
            persistentFlags := [], description := "", filePath := fp,
            isRootCommand := false, commandPath := "" } =
        .error ("file " ++ fp ++ ": duplicate field name '" ++ pascalCase f ++
          "' - flag '" ++ f ++ "' conflicts with " ++ "argument" ++ " '" ++ a ++ "'")) ∧
    (validateCommand
        { title := "T", name := "cmd", aliases := [], hidden := false,
          arguments := [{ name := "file", description := "", required := false,
                          type := "string" }],
          flags := [{ name := "filename", shorthand := "", description := "",
                      type := "string", default := none, required := false, enum := [] }],
          persistentFlags := [], description := "", filePath := "test.md",
          isRootCommand := false, commandPath := "" }).isOk = true ∧
    validateCommand
        { title := "T", name := "cmd", aliases := [], hidden := false,
          arguments := [{ name := "output", description := "", required := false,
                          type := "string" }],
          flags := [],
          persistentFlags := [{ name := "output", shorthand := "", description := "",
                                type := "string", default := none, required := false,
                                enum := [] }],
          description := "", filePath := "test.md", isRootCommand := false,
          commandPath := "" } =
      .error "file test.md: duplicate field name 'output'" := by
  refine ⟨?_, by rfl, by rfl⟩
  intro a f ha hf hpc
  simp [validateCommand, checkArgsLoop, checkFlagsLoop, seenLookup, ha, hf, hpc]

/-- C4 witness: the amended theorem instantiated at `user_name` (argument)
vs `user-name` (flag), which collide on `UserName`. -/
theorem C4_collision_detection_witness :
    validateCommand
        { title := "T", name := "cmd", aliases := [], hidden := false,
          arguments := [{ name := "user_name", description := "", required := false,
                          type := "string" }],
          flags := [{ name := "user-name", shorthand := "", description := "",
                      type := "string", default := none, required := false, enum := [] }],
          persistentFlags := [], description := "", filePath := "test.md",
          isRootCommand := false, commandPath := "" } =
      .error "file test.md: duplicate field name 'UserName' - flag 'user-name' conflicts with argument 'user_name'" :=
  (C4_collision_detection "test.md").1 "user_name" "user-name"
    (by decide) (by decide) (by decide)

/-! ## C6: skip versus error in document parsing -/

/-- C6: parsing distinguishes skip from error exactly as claimed, for any
unmarshaller behaviour: no leading delimiter yields no command and no
error; a leading delimiter with no second delimiter yields the format
error; a well-delimited block whose metadata has no `command` key, or whose
`command` mapping yields no usable name, yields no command and no error. -/
theorem C6_skip_versus_error :
    (∀ (yp : String → Except String (List (String × YVal))) (content fp : String),
      strStartsWith content "---" = false →
      parseContent yp content fp = .ok none) ∧
    (∀ (yp : String → Except String (List (String × YVal))) (content fp : String),
      strStartsWith content "---" = true →
      splitOnceL "---".data (content.data.drop 3) = none →
      parseContent yp content fp = .error "invalid frontmatter format") ∧
    (∀ (yp : String → Except String (List (String × YVal))) (content fp front body : String)
      (raw : List (String × YVal)),
      splitFrontmatter content = .okFM front body →
      yp front = .ok raw →
      slookup raw "command" = none →
      parseContent yp content fp = .ok none) ∧
    (∀ (yp : String → Except String (List (String × YVal))) (content fp front body : String)
      (raw : List (String × YVal)) (m : List (YVal × YVal)),
      splitFrontmatter content = .okFM front body →
      yp front = .ok raw →
      slookup raw "command" = some (.mp m) →
      extractName m = "" →
      parseContent yp content fp = .ok none) := by
  refine ⟨?_, ?_, ?_, ?_⟩
  · intro yp content fp h
    simp [parseContent, splitFrontmatter, h]
  · intro yp content fp h1 h2
    simp [parseContent, splitFrontmatter, h1, h2]
  · intro yp content fp front body raw hsplit hyp hcmd
    unfold parseContent
    rw [hsplit]
    dsimp only
    rw [hyp]
    dsimp only
    unfold buildCommand
    rw [hcmd]
  · intro yp content fp front body raw m hsplit hyp hcmd hname
    unfold parseContent
    rw [hsplit]
    dsimp only
    rw [hyp]
    dsimp only
    unfold buildCommand
    rw [hcmd]
    dsimp only
    simp [hname]

/-- A concrete unmarshaller behaviour for the C6 witness: a frontmatter with
a title and a command mapping that has no name key. -/
def ypNoNameC6 : String → Except String (List (String × YVal)) :=
  fun _ => .ok [("title", .str "T"), ("command", .mp [(.str "hidden", .boolV true)])]

/-- C6 witness: the theorem instantiated on concrete documents — prose with
no frontmatter, a document with an unterminated frontmatter block, and a
well-formed block whose command mapping lacks a name. -/
theorem C6_skip_versus_error_witness :
    parseContent ypNoNameC6 "hello world" "f.md" = .ok none ∧
    parseContent ypNoNameC6 "---abc" "f.md" = .error "invalid frontmatter format" ∧
    parseContent ypNoNameC6 "---\nx\n---\nbody" "f.md" = .ok none :=
  ⟨C6_skip_versus_error.1 ypNoNameC6 "hello world" "f.md" (by decide),
   C6_skip_versus_error.2.1 ypNoNameC6 "---abc" "f.md" (by decide) (by decide),
   C6_skip_versus_error.2.2.2 ypNoNameC6 "---\nx\n---\nbody" "f.md" "x" "body"
     [("title", .str "T"), ("command", .mp [(.str "hidden", .boolV true)])]
     [(.str "hidden", .boolV true)] (by decide) rfl (by rfl) (by rfl)⟩

/-! ## C10: non-mapping flag entries are silently dropped -/

/-- A concrete unmarshaller behaviour for the C10 end-to-end statement: a
command whose `flags` array holds a single bare string. -/
def ypBareFlagEntry : String → Except String (List (String × YVal)) :=
  fun _ => .ok [("title", .str "T"),
    ("command", .mp [(.str "name", .str "test"), (.str "flags", .arr [.str "verbose"])])]

/-- The command produced when the single `flags` element is a bare string:
no `Flag` entry at all, and no error. -/
def cmdBareFlagDropped : Command :=
  { title := "T", name := "test", aliases := [], hidden := false,
    arguments := [], flags := [], persistentFlags := [],
    description := "body", filePath := "f.md",
    isRootCommand := false, commandPath := "" }

/-- C10: an element of a flags or persistent-flags array that is not a
mapping is silently dropped — no `Flag` is produced for it and no error is
raised — while mapping elements remain subject to the name-required error
(at their position in the full array); a command whose flags array is a
single bare string parses successfully with no flags. -/
theorem C10_nonmapping_flags_dropped :
    (∀ (label fp : String) (i : Nat) (x : YVal) (rest : List YVal),
      (∀ m, x ≠ .mp m) →
      parseFlagEntries label fp i (x :: rest) = parseFlagEntries label fp (i + 1) rest) ∧
    (∀ (label fp : String) (i : Nat) (xs : List YVal),
      (∀ x ∈ xs, ∀ m, x ≠ .mp m) →
      parseFlagEntries label fp i xs = .ok []) ∧
    parseContent ypBareFlagEntry "---\nx\n---\nbody" "f.md" = .ok (some cmdBareFlagDropped) ∧
    parseFlagEntries "flag" "f.md" 0 [.str "verbose", .mp [(.str "description", .str "d")]] =
      .error "file f.md: flag 1: name is required" := by
  have step : ∀ (label fp : String) (i : Nat) (x : YVal) (rest : List YVal),
      (∀ m, x ≠ .mp m) →
      parseFlagEntries label fp i (x :: rest) = parseFlagEntries label fp (i + 1) rest := by
    intro label fp i x rest h
    cases x with
    | mp m => exact absurd rfl (h m)
    | str s => rfl
    | intV n => rfl
    | floatV q => rfl
    | boolV b => rfl
    | arr xs => rfl
    | nullV => rfl
  refine ⟨step, ?_, by rfl, by rfl⟩
  intro label fp i xs
  induction xs generalizing i with
  | nil => intro _; rfl
  | cons x rest ih =>
    intro h
    rw [step label fp i x rest (h x (List.mem_cons_self x rest))]
    exact ih (i + 1) (fun y hy => h y (List.mem_cons_of_mem x hy))

/-- C10 witness: the general parts instantiated on a bare-string flag
entry. -/
theorem C10_nonmapping_flags_dropped_witness :
    parseFlagEntries "flag" "f.md" 0 [YVal.str "verbose"] = .ok [] ∧
    parseFlagEntries "persistent_flag" "f.md" 0 [YVal.intV 3, YVal.boolV true] = .ok [] :=
  ⟨C10_nonmapping_flags_dropped.2.1 "flag" "f.md" 0 [YVal.str "verbose"] (by
      intro x hx m
      simp only [List.mem_singleton] at hx
      subst hx
      exact fun h => YVal.noConfusion h),
   C10_nonmapping_flags_dropped.2.1 "persistent_flag" "f.md" 0 [YVal.intV 3, YVal.boolV true] (by
      intro x hx m
      rcases List.mem_pair.mp hx with h | h <;> subst h <;> exact fun h => YVal.noConfusion h)⟩

/-! ## C2: idempotence and the skipped-file count

Every output filename produced by `getOutputFilename` ends with the
configured generated-file suffix, so the oracle's suffix branch fires for
every group: no group is ever skipped, and the incremental machinery is
inert in the composed pipeline. -/

/-- Appending a string yields a string ending in it. -/
theorem strEndsWith_append (s t : String) : strEndsWith (s ++ t) t = true := by
  unfold strEndsWith
  rw [String.data_append]
  exact List.isSuffixOf_iff_suffix.mpr (List.suffix_append _ _)

/-- Joining path components preserves a suffix of the last component. -/
theorem pathJoin2_endsWith (a b suf : String) (hb : strEndsWith b suf = true) :
    strEndsWith (pathJoin2 a b) suf = true := by
  unfold pathJoin2
  by_cases ha : a = ""
  · simp [ha, hb]
  · by_cases hbe : b = ""
    · have : suf.data <:+ b.data := List.isSuffixOf_iff_suffix.mp hb
      rw [hbe] at this
      have hsuf : suf.data = [] := List.suffix_nil.mp this
      simp only [ha, hbe, if_false, if_true, if_neg ha, if_pos rfl]
      exact List.isSuffixOf_iff_suffix.mpr (by rw [hsuf]; exact List.nil_suffix)
    · rw [if_neg ha, if_neg hbe]
      unfold strEndsWith
      rw [String.data_append]
      exact List.isSuffixOf_iff_suffix.mpr
        ((List.isSuffixOf_iff_suffix.mp hb).trans (List.suffix_append _ _))

/-- Every output filename carries the generated-file suffix. -/
theorem getOutputFilename_endsWith (cfg : Config) (p : String) :
    strEndsWith (getOutputFilename cfg p) cfg.GeneratedFileSuffix = true := by
  unfold getOutputFilename
  dsimp only
  split
  · exact pathJoin2_endsWith _ _ _ (strEndsWith_append _ _)
  · unfold pathJoin3
    exact pathJoin2_endsWith _ _ _ (strEndsWith_append _ _)

/-- The oracle always answers `true` for a machine-suffixed output path. -/
theorem shouldRegenerate_of_suffix (force : Bool) (suffix : String)
    (stat : String → StatRes) (src out : String) (h : strEndsWith out suffix = true) :
    shouldRegenerateFile force suffix stat src out = .ok true := by
  unfold shouldRegenerateFile
  cases force <;> simp [h]

/-- The per-group regeneration test always answers `true` for a non-empty
group with a machine-suffixed output path. -/
theorem anyNeedsRegen_of_suffix (force : Bool) (cfg : Config) (stat : String → StatRes)
    (out : String) (cmds : List Command)
    (h : strEndsWith out cfg.GeneratedFileSuffix = true) (hne : cmds ≠ []) :
    anyNeedsRegen force cfg stat out cmds = .ok true := by
  cases cmds with
  | nil => exact absurd rfl hne
  | cons c rest =>
    unfold anyNeedsRegen
    rw [shouldRegenerate_of_suffix force cfg.GeneratedFileSuffix stat
      (getSourceFilePath cfg c) out h]
    rfl

/-- Invariant preservation of the grouping upsert: suffixed keys and
non-empty groups. -/
theorem upsertGroup_inv (suffix : String) (gs : List (String × List Command))
    (key : String) (c : Command)
    (hgs : ∀ g ∈ gs, strEndsWith g.1 suffix = true ∧ g.2 ≠ [])
    (hkey : strEndsWith key suffix = true) :
    ∀ g ∈ upsertGroup gs key c, strEndsWith g.1 suffix = true ∧ g.2 ≠ [] := by
  induction gs with
  | nil =>
    intro g hg
    simp only [upsertGroup, List.mem_singleton] at hg
    subst hg
    exact ⟨hkey, by simp⟩
  | cons hd tl ih =>
    intro g hg
    unfold upsertGroup at hg
    by_cases hk : hd.1 = key
    · rw [if_pos hk] at hg
      rcases List.mem_cons.mp hg with h | h
      · subst h
        exact ⟨(hgs hd (List.mem_cons_self hd tl)).1, by simp⟩
      · exact hgs _ (List.mem_cons_of_mem hd h)
    · rw [if_neg hk] at hg
      rcases List.mem_cons.mp hg with h | h
      · subst h
        exact hgs hd (List.mem_cons_self hd tl)
      · exact ih (fun g hg => hgs g (List.mem_cons_of_mem hd hg)) g h

/-- Every group built by `groupCommandsByFile` has a machine-suffixed output
path and at least one command. -/
theorem groupCommandsByFile_inv (cfg : Config) (cmds : List Command) :
    ∀ g ∈ groupCommandsByFile cfg cmds,
      strEndsWith g.1 cfg.GeneratedFileSuffix = true ∧ g.2 ≠ [] := by
  unfold groupCommandsByFile
  suffices h : ∀ (l : List Command) (acc : List (String × List Command)),
      (∀ g ∈ acc, strEndsWith g.1 cfg.GeneratedFileSuffix = true ∧ g.2 ≠ []) →
      ∀ g ∈ List.foldl
        (fun g c => upsertGroup g (getOutputFilename cfg c.filePath) c) acc l,
        strEndsWith g.1 cfg.GeneratedFileSuffix = true ∧ g.2 ≠ [] by
    exact h cmds [] (by intro g hg; cases hg)
  intro l
  induction l with
  | nil => intro acc hacc; exact hacc
  | cons c rest ih =>
    intro acc hacc
    exact ih _ (upsertGroup_inv cfg.GeneratedFileSuffix acc _ c hacc
      (getOutputFilename_endsWith cfg c.filePath))

/-- The filesystem after writing each group's rendered content in order. -/
def applyGroups (render : List Command → String) (now : Int) :
    FSState → List (String × List Command) → FSState
  | fs, [] => fs
  | fs, (k, cs) :: rest => applyGroups render now (fsWrite fs k (render cs) now) rest

/-- When every group is machine-suffixed and non-empty, the generation loop
writes every group, skips nothing, and never fails. -/
theorem genLoop_all_regen (cfg : Config) (force : Bool) (render : List Command → String)
    (now : Int) (groups : List (String × List Command))
    (hinv : ∀ g ∈ groups, strEndsWith g.1 cfg.GeneratedFileSuffix = true ∧ g.2 ≠ []) :
    ∀ (fs : FSState) (skipped : Nat) (written : List String),
      genLoop cfg force render now fs skipped written groups =
        .ok (applyGroups render now fs groups, skipped, written ++ groups.map Prod.fst) := by
  induction groups with
  | nil => intro fs skipped written; simp [genLoop, applyGroups]
  | cons g rest ih =>
    intro fs skipped written
    obtain ⟨hsfx, hne⟩ := hinv g (List.mem_cons_self g rest)
    obtain ⟨k, cs⟩ := g
    unfold genLoop
    rw [anyNeedsRegen_of_suffix force cfg (fsStat fs) k cs hsfx hne]
    simp only [except_ok_bind, if_true]
    rw [ih (fun g hg => hinv g (List.mem_cons_of_mem _ hg))
      (fsWrite fs k (render cs) now) skipped (written ++ [k])]
    simp [applyGroups, List.append_assoc]

/-- A full `Generate` run: every group is written, none skipped. -/
theorem generateRun_all (cfg : Config) (force : Bool) (render : List Command → String)
    (cmds : List Command) (fs : FSState) (now : Int) :
    generateRun cfg force render cmds fs now =
      .ok (applyGroups render now fs (groupCommandsByFile cfg cmds), 0,
        (groupCommandsByFile cfg cmds).map Prod.fst) := by
  unfold generateRun
  rw [genLoop_all_regen cfg force render now (groupCommandsByFile cfg cmds)
    (groupCommandsByFile_inv cfg cmds) fs 0 []]
  rfl

/-- The content that the write sequence leaves at key `k` (the last group
with that key wins), independent of the prior filesystem and of the write
timestamp. -/
def lastRender (render : List Command → String) (k : String) :
    List (String × List Command) → Option String
  | [] => none
  | g :: gs =>
    match lastRender render k gs with
    | some c => some c
    | none => if g.1 = k then some (render g.2) else none

/-- Lookup after a write. -/
theorem fsWrite_lookup (fs : FSState) (p c : String) (now : Int) (q : String) :
    fsLookup (fsWrite fs p c now) q = if p = q then some ⟨c, now⟩ else fsLookup fs q := by
  induction fs with
  | nil =>
    unfold fsWrite fsLookup
    by_cases h : p = q
    · simp [h]
    · simp [h, fsLookup]
  | cons e rest ih =>
    obtain ⟨r, v⟩ := e
    unfold fsWrite
    by_cases hrp : r = p
    · subst hrp
      by_cases hq : r = q
      · simp [hq, fsLookup]
      · simp [hq, fsLookup, ih]
    · rw [if_neg hrp]
      by_cases hq : r = q
      · subst hq
        have : ¬ p = r := fun h => hrp h.symm
        simp [fsLookup, this]
      · simp [fsLookup, hq, ih]

/-- Contents after the write sequence: the last render for the key when one
exists, the underlying filesystem's content otherwise. -/
theorem applyGroups_lookup_content (render : List Command → String) (now : Int)
    (k : String) :
    ∀ (gs : List (String × List Command)) (fs : FSState),
      (fsLookup (applyGroups render now fs gs) k).map FSEntry.content =
        match lastRender render k gs with
        | some c => some c
        | none => (fsLookup fs k).map FSEntry.content := by
  intro gs
  induction gs with
  | nil => intro fs; rfl
  | cons g gs ih =>
    intro fs
    obtain ⟨p, cs⟩ := g
    show (fsLookup (applyGroups render now (fsWrite fs p (render cs) now) gs) k).map
        FSEntry.content = _
    rw [ih]
    cases hl : lastRender render k gs with
    | some c => simp [lastRender, hl]
    | none =>
      by_cases hpk : p = k
      · simp [lastRender, hl, fsWrite_lookup, hpk]
      · simp [lastRender, hl, fsWrite_lookup, hpk]

/-- Every written key has a determined content. -/
theorem lastRender_of_mem (render : List Command → String) (k : String) :
    ∀ gs : List (String × List Command), k ∈ gs.map Prod.fst →
      ∃ c, lastRender render k gs = some c := by
  intro gs
  induction gs with
  | nil => intro h; cases h
  | cons g gs ih =>
    intro h
    unfold lastRender
    cases hl : lastRender render k gs with
    | some c => exact ⟨c, rfl⟩
    | none =>
      rcases List.mem_cons.mp h with h1 | h1
      · exact ⟨render g.2, by simp [h1.symm]⟩
      · obtain ⟨c, hc⟩ := ih h1
        rw [hc] at hl
        cases hl

/-- C2 amended: with no source changes, the second generation run writes the
same (byte-identical) contents for the same list of output files; the
skipped-file count is zero on both runs — not nonzero — because every
output filename carries the generated-file suffix, so every group is
machine-suffixed and rewritten on every run, and there are no
non-machine-suffixed groups at all. -/
theorem C2_second_run_rewrites_everything (cfg : Config) (force : Bool)
    (render : List Command → String) (cmds : List Command) (fs : FSState)
    (now1 now2 : Int) :
    ∃ (fs1 fs2 : FSState) (w : List String),
      generateRun cfg force render cmds fs now1 = .ok (fs1, 0, w) ∧
      generateRun cfg force render cmds fs1 now2 = .ok (fs2, 0, w) ∧
      w = (groupCommandsByFile cfg cmds).map Prod.fst ∧
      (∀ k ∈ w, strEndsWith k cfg.GeneratedFileSuffix = true) ∧
      (∀ k ∈ w, (fsLookup fs2 k).map FSEntry.content =
        (fsLookup fs1 k).map FSEntry.content) := by
  refine ⟨applyGroups render now1 fs (groupCommandsByFile cfg cmds),
    applyGroups render now2 (applyGroups render now1 fs (groupCommandsByFile cfg cmds))
      (groupCommandsByFile cfg cmds),
    (groupCommandsByFile cfg cmds).map Prod.fst,
    generateRun_all cfg force render cmds fs now1,
    generateRun_all cfg force render cmds _ now2, rfl, ?_, ?_⟩
  · intro k hk
    obtain ⟨g, hg, hgk⟩ := List.mem_map.mp hk
    rw [← hgk]
    exact (groupCommandsByFile_inv cfg cmds g hg).1
  · intro k hk
    obtain ⟨c, hc⟩ := lastRender_of_mem render k (groupCommandsByFile cfg cmds) hk
    rw [applyGroups_lookup_content, applyGroups_lookup_content, hc]

/-- Configuration for the concrete C2 counterexample run. -/
def exCfgC2 : Config :=
  { DefaultConfig with BinaryName := "testapp", InputDir := "in", OutputDir := "generated" }

/-- The single discovered command of the counterexample run. -/
def exCmdC2 : Command :=
  { title := "T", name := "test", aliases := [], hidden := false, arguments := [],
    flags := [], persistentFlags := [], description := "", filePath := "test.md",
    isRootCommand := false, commandPath := "" }

/-- A deterministic stand-in for the template renderer. -/
def exRenderC2 : List Command → String := fun _ => "content"

/-- The filesystem before the first run: just the source document. -/
def exFS0C2 : FSState := [("in/test.md", ⟨"src", 0⟩)]

/-- The filesystem after the first run. -/
def exFS1C2 : FSState :=
  [("in/test.md", ⟨"src", 0⟩), ("generated/test_generated.go", ⟨"content", 1⟩)]

/-- The filesystem after the second run: identical contents, newer stamp. -/
def exFS2C2 : FSState :=
  [("in/test.md", ⟨"src", 0⟩), ("generated/test_generated.go", ⟨"content", 2⟩)]

/-- C2 counterexample: running generation twice over one unchanged source
with `forceAll = false` leaves the output byte-identical, but the
skipped-file count of the second run is `0` — the claim's "nonzero
skipped-file count" is false, because the single group's output file
`generated/test_generated.go` is machine-suffixed and is rewritten, and no
non-machine-suffixed group exists. -/
theorem C2_counterexample_zero_skipped :
    generateRun exCfgC2 false exRenderC2 [exCmdC2] exFS0C2 1 =
      .ok (exFS1C2, 0, ["generated/test_generated.go"]) ∧
    generateRun exCfgC2 false exRenderC2 [exCmdC2] exFS1C2 2 =
      .ok (exFS2C2, 0, ["generated/test_generated.go"]) :=
  ⟨by rfl, by rfl⟩

end Adder
